import Mathlib

/-!
# gas-report-filter: a shallow embedding of `gas-report-filter.go`

The program reads a JUnit-style report, drops the findings named by a
whitelist and prints what is left.  This file embeds the data model and the
filtering functions of `gas-report-filter.go` and proves properties of them.

Conventions of the embedding

* A Go `string` is a `List Char`.  The only string operations of the program
  are equality and `strings.Split` with the ASCII separator `"> "`; on valid
  UTF-8 text splitting byte-wise and splitting character-wise agree.
* A Go slice is a `List`; a nil slice and an empty slice are both `[]`.
* A run-time panic is the `error` case of `Except GoPanic`.
* `Testsuite.Tests` is a Go `int`; it is only ever assigned `len(...)`, so it
  is an `Int` and no overflow can occur.
-/

namespace GasReportFilter

/-- A Go string, as its sequence of characters. -/
abbrev GoString := List Char

/-- The run-time panics the filter can raise. -/
inductive GoPanic where
  /-- Message `index out of range [index] with length len`. -/
  | indexOutOfRange (index len : Nat)
  deriving DecidableEq, Repr

deriving instance DecidableEq for Except

/-! ## Data model (lines 15-47 of the source) -/

/-- Go type `xml.Name`. -/
structure XMLName where
  Space : GoString
  Local : GoString
  deriving DecidableEq, Repr

/-- Go type `Issue`: one whitelist entry. -/
structure Issue where
  Details : GoString
  File : GoString
  Code : GoString
  deriving DecidableEq, Repr

/-- Go type `Whitelist`. -/
structure Whitelist where
  Issues : List Issue
  deriving DecidableEq, Repr

/-- Go type `Failure`: the body of a finding. -/
structure Failure where
  XMLName : XMLName
  Message : GoString
  Text : GoString
  deriving DecidableEq, Repr

/-- Go type `Testcase`: one finding. -/
structure Testcase where
  XMLName : XMLName
  Name : GoString
  Failure : Failure
  deriving DecidableEq, Repr

/-- Go type `Testsuite`: one group of findings. -/
structure Testsuite where
  XMLName : XMLName
  Name : GoString
  Tests : Int
  Testcases : List Testcase
  deriving DecidableEq, Repr

/-! ## The part of the Go standard library the filter calls -/

/-- Go `strings.Index(s, substr)`: the offset of the first occurrence of
`substr` in `s`, `none` where Go returns `-1`. -/
def Index : GoString → GoString → Option Nat
  | [], substr => if substr.isPrefixOf [] then some 0 else none
  | c :: t, substr =>
    if substr.isPrefixOf (c :: t) then some 0
    else (Index t substr).map (fun m => m + 1)

/-- The loop of Go `strings.genSplit` for a non-empty separator: cut at the first
occurrence of `sep`, store the text before it, go on with the text after it;
the last field is what remains.  `fuel` bounds the number of cuts. -/
def splitLoop (sep : GoString) : Nat → GoString → List GoString
  | 0, s => [s]
  | fuel + 1, s =>
    match Index s sep with
    | none => [s]
    | some m => s.take m :: splitLoop sep fuel (s.drop (m + sep.length))

/-- Go `strings.Split(s, sep)` for a non-empty `sep`.  Every cut consumes at
least one character, so `s.length` cuts are always enough
(`splitLoop_fuel`). -/
def Split (s sep : GoString) : List GoString :=
  splitLoop sep s.length s

/-- Go slice indexing `a[i]`, which panics when `i` is out of range. -/
def index {α : Type} (a : List α) (i : Nat) : Except GoPanic α :=
  match a.get? i with
  | some x => .ok x
  | none => .error (.indexOutOfRange i a.length)

/-! ## The filter (lines 95-131 of the source) -/

/-- The separator of `retrieveCode`. -/
def sep : GoString := ['>', ' ']

/-- Source `retrieveCode`: `strings.Split(output, "> ")[1]`. -/
def retrieveCode (output : GoString) : Except GoPanic GoString :=
  index (Split output sep) 1

/-- The loop of `isInWhitelist` over the entries, first to last. -/
def isInWhitelistLoop (file code : GoString) : List Issue → Bool
  | [] => false
  | issue :: rest =>
    if issue.File = file ∧ issue.Code = code then true
    else isInWhitelistLoop file code rest

/-- Source `isInWhitelist`. -/
def isInWhitelist (whitelist : Whitelist) (file code : GoString) : Bool :=
  isInWhitelistLoop file code whitelist.Issues

/-- The loop of `removeWhitelistedIssues`; `acc` is `whitelistedTestcases`.
The argument `retrieveCode(testcase.Failure.Text)` is evaluated before
`isInWhitelist` is called, so its panic ends the loop. -/
def removeWhitelistedIssuesLoop (whitelist : Whitelist) :
    List Testcase → List Testcase → Except GoPanic (List Testcase)
  | [], acc => .ok acc
  | testcase :: rest, acc =>
    match retrieveCode testcase.Failure.Text with
    | .error e => .error e
    | .ok code =>
      if !isInWhitelist whitelist testcase.Name code then
        removeWhitelistedIssuesLoop whitelist rest (acc ++ [testcase])
      else
        removeWhitelistedIssuesLoop whitelist rest acc

/-- Source `removeWhitelistedIssues`. -/
def removeWhitelistedIssues (whitelist : Whitelist) (testcases : List Testcase) :
    Except GoPanic (List Testcase) :=
  removeWhitelistedIssuesLoop whitelist testcases []

/-- The loop of `getWhitelistedTestsuites`; `acc` is `whitelistedTestsuites`. -/
def getWhitelistedTestsuitesLoop (whitelist : Whitelist) :
    List Testsuite → List Testsuite → Except GoPanic (List Testsuite)
  | [], acc => .ok acc
  | testsuite :: rest, acc =>
    match removeWhitelistedIssues whitelist testsuite.Testcases with
    | .error e => .error e
    | .ok testcases =>
      if testcases.length ≠ 0 then
        getWhitelistedTestsuitesLoop whitelist rest
          (acc ++ [{ testsuite with Testcases := testcases, Tests := testcases.length }])
      else
        getWhitelistedTestsuitesLoop whitelist rest acc

/-- Source `getWhitelistedTestsuites`. -/
def getWhitelistedTestsuites (whitelist : Whitelist) (testsuites : List Testsuite) :
    Except GoPanic (List Testsuite) :=
  getWhitelistedTestsuitesLoop whitelist testsuites []

/-! ## Vocabulary of the statements -/

/-- Every finding body of the list contains the separator `"> "`. -/
def BodiesOk (tcs : List Testcase) : Prop :=
  ∀ tc ∈ tcs, sep <:+: tc.Failure.Text

/-- Every finding body of every group contains the separator `"> "`. -/
def ReportOk (gs : List Testsuite) : Prop :=
  ∀ g ∈ gs, BodiesOk g.Testcases

/-- A finding is exempted by a whitelist: some entry has the finding's name as
its file and the finding's extracted code as its code. -/
def Exempted (w : Whitelist) (F : Testcase) : Prop :=
  ∃ E ∈ w.Issues, E.File = F.Name ∧ retrieveCode F.Failure.Text = .ok E.Code

instance (tcs : List Testcase) : Decidable (BodiesOk tcs) := by
  unfold BodiesOk; infer_instance

instance (gs : List Testsuite) : Decidable (ReportOk gs) := by
  unfold ReportOk; infer_instance

instance (w : Whitelist) (F : Testcase) : Decidable (Exempted w F) := by
  unfold Exempted; infer_instance

/-- The findings of a list that are not exempted, in order. -/
def keptFindings (w : Whitelist) (tcs : List Testcase) : List Testcase :=
  tcs.filter (fun F => decide (¬ Exempted w F))

/-- What one group becomes: nothing when no finding is kept, else the group
with the kept findings and their number as its count. -/
def keptSuite (w : Whitelist) (g : Testsuite) : Option Testsuite :=
  if (keptFindings w g.Testcases).length ≠ 0 then
    some { g with
      Testcases := keptFindings w g.Testcases
      Tests := (keptFindings w g.Testcases).length }
  else none

/-! ## The whitelist loader (lines 50-54 and 74-92 of the source)

The loader calls `os.Open`, `ioutil.ReadAll`, `json.Unmarshal` and
`log.Fatal`.  The file system and the JSON decoder are parameters; the
behaviour of a nil `*os.File` is that of the Go standard library. -/

/-- A Go `error` value, as far as the loader tells errors apart. -/
inductive GoError where
  /-- Value `os.ErrInvalid` ("invalid argument"): what every method of a nil
  `*os.File` returns. -/
  | errInvalid
  /-- Any other error, with its message. -/
  | other (msg : GoString)
  deriving DecidableEq, Repr

/-- How a call ends: it returns a value, or `log.Fatal` ends the process with
exit status 1 after printing the error. -/
inductive Outcome (α : Type) where
  | returned (a : α)
  | fatal (err : GoError)
  deriving DecidableEq, Repr

/-- An open file: what reading it to its end yields. -/
structure File where
  contents : Except GoError GoString
  deriving DecidableEq

/-- A file system: what opening a path yields. -/
abbrev FileSystem := GoString → Except GoError File

/-- A JSON decoder `json.Unmarshal(data, &v)`: from the data and the present
value of `v` to the new value of `v` and the error returned. -/
abbrev Unmarshal := GoString → Whitelist → Whitelist × Option GoError

/-- Go `os.Open(name)`: a handle and a nil error, or a nil handle and an error. -/
def osOpen (fs : FileSystem) (name : GoString) : Option File × Option GoError :=
  match fs name with
  | .ok f => (some f, none)
  | .error e => (none, some e)

/-- Go `ioutil.ReadAll(f)` for `f : *os.File`.  `Read` on a nil `*os.File`
returns `os.ErrInvalid`, which `ReadAll` hands back. -/
def ioutilReadAll : Option File → GoString × Option GoError
  | none => ([], some .errInvalid)
  | some f =>
    match f.contents with
    | .ok bytes => (bytes, none)
    | .error e => ([], some e)

/-- Source `errorHandler`: `log.Fatal(err)` when `err != nil`. -/
def errorHandler (err : Option GoError) : Outcome Unit :=
  match err with
  | some e => .fatal e
  | none => .returned ()

/-- Source `parseWhitelistFile`.  `whitelist` starts as the zero value; the
deferred `jsonFile.Close()` does not change the result. -/
def parseWhitelistFile (fs : FileSystem) (jsonUnmarshal : Unmarshal)
    (filename : GoString) : Outcome Whitelist :=
  let whitelist0 : Whitelist := { Issues := [] }
  let opened := osOpen fs filename
  let jsonFile := opened.1
  let whitelist1 :=
    if opened.2 ≠ none then (jsonUnmarshal ['{', '}'] whitelist0).1 else whitelist0
  let read := ioutilReadAll jsonFile
  let byteValue := read.1
  match errorHandler read.2 with
  | .fatal e => .fatal e
  | .returned _ =>
    let decoded := jsonUnmarshal byteValue whitelist1
    let whitelist2 := decoded.1
    let whitelist3 :=
      if decoded.2 ≠ none then (jsonUnmarshal ['{', '}'] whitelist2).1 else whitelist2
    .returned whitelist3

/-! ## The example scenario of the specification, as data -/

/-- The `xml.Name` the decoder records for an element without namespace. -/
def xmlName (tag : String) : XMLName := { Space := [], Local := tag.toList }

/-- A finding with the given name and body, and an empty `message` attribute. -/
def finding (name body : String) : Testcase :=
  { XMLName := xmlName "testcase"
    Name := name.toList
    Failure := { XMLName := xmlName "failure", Message := [], Text := body.toList } }

/-- Finding A of the example scenario. -/
def findingA : Testcase := finding "pkg/foo.go" "Potential hardcoded credentials - > G101"

/-- Finding B of the example scenario. -/
def findingB : Testcase := finding "pkg/foo.go" "Errors unhandled - > G104"

/-- A group with the given name, declared count and findings. -/
def suite (name : String) (tests : Int) (tcs : List Testcase) : Testsuite :=
  { XMLName := xmlName "testsuite", Name := name.toList, Tests := tests, Testcases := tcs }

/-- A whitelist entry for a file and a code, with empty details. -/
def entry (file code : String) : Issue :=
  { Details := [], File := file.toList, Code := code.toList }

/-- The whitelist of the example scenario: the single entry `pkg/foo.go`, `G101`. -/
def exampleWhitelist : Whitelist := { Issues := [entry "pkg/foo.go" "G101"] }

/-- The report of the example scenario: one group with findings A and B. -/
def exampleReport : List Testsuite := [suite "pkg/foo.go" 2 [findingA, findingB]]

/-- The whitelist of the second example scenario: entries for `G101` and for
`G104` of `pkg/foo.go`. -/
def exampleWhitelistBoth : Whitelist :=
  { Issues := [entry "pkg/foo.go" "G101", entry "pkg/foo.go" "G104"] }

/-- A whitelist file that is well-formed JSON but gives `details` a number
where the field `Details string` wants a string. -/
def wrongTypeContent : GoString :=
  "\x7b\"Issues\":[\x7b\"details\":1,\"file\":\"pkg/foo.go\",\"code\":\"G101\"\x7d]\x7d".toList

/-- A decoder that agrees with Go `json.Unmarshal` into a `Whitelist` on the
two contents the examples use.  For the empty object it sets no field and
returns no error.  For `wrongTypeContent` it skips the field of the wrong
type, stores the rest of the entry and returns an `UnmarshalTypeError`.  Any
other content is taken not to be JSON: a `SyntaxError` is returned before the
value is touched. -/
def tableUnmarshal : Unmarshal := fun data w =>
  if data = ['{', '}'] then (w, none)
  else if data = wrongTypeContent then
    ({ Issues := [entry "pkg/foo.go" "G101"] },
      some (.other "json: cannot unmarshal number into Go struct field Issue.Issues.details of type string".toList))
  else (w, some (.other "invalid character looking for beginning of value".toList))

/-- A file system with the single file `whitelist.json` of the given content. -/
def oneFile (content : GoString) : FileSystem := fun name =>
  if name = "whitelist.json".toList then .ok { contents := .ok content }
  else .error (.other "no such file or directory".toList)

/-! ## Facts about `Index` and `Split` -/

theorem Index_eq_none_iff (s substr : GoString) :
    Index s substr = none ↔ ¬ substr <:+: s := by
  induction s with
  | nil =>
    simp only [Index, List.infix_nil]
    cases substr <;> simp [List.isPrefixOf]
  | cons c t ih =>
    simp only [Index, List.infix_cons_iff, not_or]
    by_cases h : substr.isPrefixOf (c :: t) = true
    · simp [h, List.isPrefixOf_iff_prefix.mp h]
    · have h2 : ¬ substr <+: c :: t := fun hp => h (List.isPrefixOf_iff_prefix.mpr hp)
      simp [h, h2, ih]

theorem Index_eq_some (s substr : GoString) (m : Nat) (h : Index s substr = some m) :
    substr <+: s.drop m ∧ ∀ k, k < m → ¬ substr <+: s.drop k := by
  induction s generalizing m with
  | nil =>
    simp only [Index] at h
    split at h
    · rename_i hp
      cases h
      exact ⟨List.isPrefixOf_iff_prefix.mp hp, fun k hk => absurd hk (Nat.not_lt_zero k)⟩
    · cases h
  | cons c t ih =>
    simp only [Index] at h
    split at h
    · rename_i hp
      cases h
      exact ⟨List.isPrefixOf_iff_prefix.mp hp, fun k hk => absurd hk (Nat.not_lt_zero k)⟩
    · rename_i hp
      cases hi : Index t substr with
      | none => simp [hi] at h
      | some j =>
        simp only [hi, Option.map_some', Option.some.injEq] at h
        subst h
        obtain ⟨h1, h2⟩ := ih j hi
        refine ⟨by simpa using h1, fun k hk => ?_⟩
        cases k with
        | zero => exact fun hq => hp (List.isPrefixOf_iff_prefix.mpr (by simpa using hq))
        | succ k => simpa using h2 k (by omega)

theorem Index_add_length_le (s substr : GoString) (m : Nat) (h : Index s substr = some m) :
    m + substr.length ≤ s.length := by
  induction s generalizing m with
  | nil =>
    simp only [Index] at h
    split at h
    · rename_i hp
      cases h
      have := (List.isPrefixOf_iff_prefix.mp hp).length_le
      simpa using this
    · cases h
  | cons c t ih =>
    simp only [Index] at h
    split at h
    · rename_i hp
      cases h
      have := (List.isPrefixOf_iff_prefix.mp hp).length_le
      simpa using this
    · cases hi : Index t substr with
      | none => simp [hi] at h
      | some j =>
        simp only [hi, Option.map_some', Option.some.injEq] at h
        subst h
        have := ih j hi
        simp only [List.length_cons]
        omega

/-- With a non-empty separator, any fuel of at least `s.length` gives the same
fields: the loop of `Split` never stops for lack of fuel. -/
theorem splitLoop_fuel (sp : GoString) (hsp : sp ≠ []) (f g : Nat) (s : GoString)
    (hf : s.length ≤ f) (hg : s.length ≤ g) : splitLoop sp f s = splitLoop sp g s := by
  have hnone : ∀ n, Index ([] : GoString) sp = none → splitLoop sp n [] = [[]] := by
    intro n h
    cases n <;> simp [splitLoop, h]
  have hnil : Index ([] : GoString) sp = none := by
    cases sp with
    | nil => exact absurd rfl hsp
    | cons a l => simp [Index, List.isPrefixOf]
  have hpos : 0 < sp.length := List.length_pos.mpr hsp
  induction f generalizing g s with
  | zero =>
    have hs : s = [] := List.length_eq_zero.mp (Nat.le_zero.mp hf)
    subst hs
    rw [hnone 0 hnil, hnone g hnil]
  | succ f ih =>
    cases g with
    | zero =>
      have hs : s = [] := List.length_eq_zero.mp (Nat.le_zero.mp hg)
      subst hs
      rw [hnone _ hnil, hnone 0 hnil]
    | succ g =>
      simp only [splitLoop]
      cases hi : Index s sp with
      | none => rfl
      | some m =>
        have hb := Index_add_length_le s sp m hi
        have hl : (s.drop (m + sp.length)).length ≤ f := by
          simp only [List.length_drop]; omega
        have hl2 : (s.drop (m + sp.length)).length ≤ g := by
          simp only [List.length_drop]; omega
        simp only [ih g _ hl hl2]

/-- What `retrieveCode` computes: a panic when `"> "` does not occur; otherwise
the second field of the split, that is the text after the first `"> "` up to
the next `"> "` of that text, or all of it when there is none. -/
theorem retrieveCode_eq (s : GoString) :
    retrieveCode s =
      match Index s sep with
      | none => .error (.indexOutOfRange 1 1)
      | some m =>
        .ok (match Index (s.drop (m + 2)) sep with
          | none => s.drop (m + 2)
          | some k => (s.drop (m + 2)).take k) := by
  unfold retrieveCode Split
  cases hi : Index s sep with
  | none =>
    have : splitLoop sep s.length s = [s] := by
      cases s.length <;> simp [splitLoop, hi]
    simp [this, index]
  | some m =>
    have hb := Index_add_length_le s sep m hi
    have hlen : sep.length = 2 := rfl
    obtain ⟨n, hn⟩ : ∃ n, s.length = n + 2 := ⟨s.length - 2, by omega⟩
    rw [hn]
    simp only [splitLoop, hi, hlen]
    cases hj : Index (s.drop (m + 2)) sep <;> simp [index]

theorem infix_iff_exists_drop (substr l : GoString) :
    substr <:+: l ↔ ∃ j, substr <+: l.drop j := by
  constructor
  · rintro ⟨p, q, h⟩
    refine ⟨p.length, q, ?_⟩
    rw [← h]
    simp
  · rintro ⟨j, hj⟩
    exact hj.isInfix.trans (List.drop_suffix j l).isInfix

theorem retrieveCode_error_of_not_infix (s : GoString) (h : ¬ sep <:+: s) :
    retrieveCode s = .error (.indexOutOfRange 1 1) := by
  rw [retrieveCode_eq, (Index_eq_none_iff s sep).mpr h]

theorem retrieveCode_ok_of_infix (s : GoString) (h : sep <:+: s) :
    ∃ c, retrieveCode s = .ok c := by
  rw [retrieveCode_eq]
  cases hi : Index s sep with
  | none => exact absurd h ((Index_eq_none_iff s sep).mp hi)
  | some m => exact ⟨_, rfl⟩

/-- The offset `Index` finds in `a ++ "> " ++ t` is `a.length` when no earlier
cut of the text at a `"> "` exists. -/
theorem Index_first (a t : GoString)
    (hfirst : ∀ a1 t1 : GoString, a ++ sep ++ t = a1 ++ sep ++ t1 → a.length ≤ a1.length) :
    Index (a ++ sep ++ t) sep = some a.length := by
  cases hi : Index (a ++ sep ++ t) sep with
  | none =>
    exact absurd ⟨a, t, rfl⟩ ((Index_eq_none_iff _ sep).mp hi)
  | some m =>
    obtain ⟨h1, h2⟩ := Index_eq_some _ _ _ hi
    have hb := Index_add_length_le _ _ _ hi
    have hle : m ≤ a.length := by
      by_contra hlt
      refine h2 a.length (by omega) ⟨t, ?_⟩
      simp
    have hge : a.length ≤ m := by
      obtain ⟨q, hq⟩ := h1
      have := hfirst ((a ++ sep ++ t).take m) q (by
        rw [List.append_assoc ((a ++ sep ++ t).take m), hq, List.take_append_drop])
      simp only [List.length_take] at this
      omega
    rw [Nat.le_antisymm hle hge]

/-! ## The loops, as list functions -/

theorem isInWhitelist_iff (w : Whitelist) (file code : GoString) :
    isInWhitelist w file code = true ↔ ∃ E ∈ w.Issues, E.File = file ∧ E.Code = code := by
  unfold isInWhitelist
  induction w.Issues with
  | nil => simp [isInWhitelistLoop]
  | cons issue rest ih =>
    simp only [isInWhitelistLoop, List.mem_cons, exists_eq_or_imp]
    by_cases h : issue.File = file ∧ issue.Code = code
    · simp [h]
    · simp only [h, if_false, false_or]
      exact ih

theorem exempted_iff_isInWhitelist (w : Whitelist) (F : Testcase) (c : GoString)
    (hc : retrieveCode F.Failure.Text = .ok c) :
    Exempted w F ↔ isInWhitelist w F.Name c = true := by
  rw [isInWhitelist_iff]
  unfold Exempted
  constructor
  · rintro ⟨E, hE, hf, hk⟩
    rw [hc] at hk
    exact ⟨E, hE, hf, (Except.ok.inj hk).symm⟩
  · rintro ⟨E, hE, hf, hk⟩
    exact ⟨E, hE, hf, by rw [hc, hk]⟩

theorem removeLoop_ok (w : Whitelist) (tcs acc : List Testcase) (h : BodiesOk tcs) :
    removeWhitelistedIssuesLoop w tcs acc = .ok (acc ++ keptFindings w tcs) := by
  induction tcs generalizing acc with
  | nil => simp [removeWhitelistedIssuesLoop, keptFindings]
  | cons tc rest ih =>
    have hrest : BodiesOk rest := fun x hx => h x (List.mem_cons_of_mem _ hx)
    obtain ⟨c, hc⟩ := retrieveCode_ok_of_infix _ (h tc (List.mem_cons_self _ _))
    have hex := exempted_iff_isInWhitelist w tc c hc
    simp only [removeWhitelistedIssuesLoop, hc]
    by_cases hin : isInWhitelist w tc.Name c = true
    · have : Exempted w tc := hex.mpr hin
      simp [hin, ih _ hrest, keptFindings, List.filter_cons, this]
    · have : ¬ Exempted w tc := fun he => hin (hex.mp he)
      simp [hin, ih _ hrest, keptFindings, List.filter_cons, this]

theorem removeLoop_error (w : Whitelist) (tcs acc : List Testcase) (h : ¬ BodiesOk tcs) :
    removeWhitelistedIssuesLoop w tcs acc = .error (.indexOutOfRange 1 1) := by
  induction tcs generalizing acc with
  | nil => exact absurd (fun _ hx => absurd hx (List.not_mem_nil _)) h
  | cons tc rest ih =>
    by_cases htc : sep <:+: tc.Failure.Text
    · have hrest : ¬ BodiesOk rest := by
        intro hr
        apply h
        intro x hx
        rcases List.mem_cons.mp hx with rfl | hx
        · exact htc
        · exact hr x hx
      obtain ⟨c, hc⟩ := retrieveCode_ok_of_infix _ htc
      simp only [removeWhitelistedIssuesLoop, hc]
      split <;> exact ih _ hrest
    · simp only [removeWhitelistedIssuesLoop, retrieveCode_error_of_not_infix _ htc]

theorem getLoop_ok (w : Whitelist) (gs acc : List Testsuite) (h : ReportOk gs) :
    getWhitelistedTestsuitesLoop w gs acc = .ok (acc ++ gs.filterMap (keptSuite w)) := by
  induction gs generalizing acc with
  | nil => simp [getWhitelistedTestsuitesLoop]
  | cons g rest ih =>
    have hrest : ReportOk rest := fun x hx => h x (List.mem_cons_of_mem _ hx)
    have hg : removeWhitelistedIssues w g.Testcases = .ok (keptFindings w g.Testcases) := by
      unfold removeWhitelistedIssues
      rw [removeLoop_ok w _ _ (h g (List.mem_cons_self _ _))]
      simp
    simp only [getWhitelistedTestsuitesLoop, hg]
    by_cases hlen : (keptFindings w g.Testcases).length ≠ 0
    · simp [hlen, ih _ hrest, keptSuite, List.filterMap_cons]
    · simp [hlen, ih _ hrest, keptSuite, List.filterMap_cons]

theorem getLoop_error (w : Whitelist) (gs acc : List Testsuite) (h : ¬ ReportOk gs) :
    getWhitelistedTestsuitesLoop w gs acc = .error (.indexOutOfRange 1 1) := by
  induction gs generalizing acc with
  | nil => exact absurd (fun _ hx => absurd hx (List.not_mem_nil _)) h
  | cons g rest ih =>
    by_cases hg : BodiesOk g.Testcases
    · have hrest : ¬ ReportOk rest := by
        intro hr
        apply h
        intro x hx
        rcases List.mem_cons.mp hx with rfl | hx
        · exact hg
        · exact hr x hx
      have hrm : removeWhitelistedIssues w g.Testcases = .ok (keptFindings w g.Testcases) := by
        unfold removeWhitelistedIssues
        rw [removeLoop_ok w _ _ hg]
        simp
      simp only [getWhitelistedTestsuitesLoop, hrm]
      split <;> exact ih _ hrest
    · have hrm : removeWhitelistedIssues w g.Testcases = .error (.indexOutOfRange 1 1) :=
        removeLoop_error w _ _ hg
      simp only [getWhitelistedTestsuitesLoop, hrm]

theorem getWhitelistedTestsuites_ok (w : Whitelist) (gs : List Testsuite) (h : ReportOk gs) :
    getWhitelistedTestsuites w gs = .ok (gs.filterMap (keptSuite w)) := by
  unfold getWhitelistedTestsuites
  rw [getLoop_ok w gs [] h]
  simp

/-! ## What a group becomes -/

theorem keptFindings_sublist (w : Whitelist) (tcs : List Testcase) :
    (keptFindings w tcs).Sublist tcs :=
  List.filter_sublist tcs

theorem keptFindings_ne_nil_iff (w : Whitelist) (tcs : List Testcase) :
    (keptFindings w tcs).length ≠ 0 ↔ ∃ F ∈ tcs, ¬ Exempted w F := by
  unfold keptFindings
  rw [Nat.ne_zero_iff_zero_lt, List.length_pos_iff_exists_mem]
  simp [List.mem_filter]

theorem keptSuite_eq_none_iff (w : Whitelist) (g : Testsuite) :
    keptSuite w g = none ↔ ∀ F ∈ g.Testcases, Exempted w F := by
  unfold keptSuite
  by_cases h : (keptFindings w g.Testcases).length ≠ 0
  · have := (keptFindings_ne_nil_iff w g.Testcases).mp h
    rw [if_pos h]
    constructor
    · intro hn; cases hn
    · intro hall
      obtain ⟨F, hF, hne⟩ := this
      exact absurd (hall F hF) hne
  · have hno : ¬ ∃ F ∈ g.Testcases, ¬ Exempted w F :=
      fun hex => h ((keptFindings_ne_nil_iff w g.Testcases).mpr hex)
    rw [if_neg h]
    simp only [true_iff]
    intro F hF
    by_contra hne
    exact hno ⟨F, hF, hne⟩

theorem keptSuite_eq_some (w : Whitelist) (g o : Testsuite) (h : keptSuite w g = some o) :
    o = { g with
      Testcases := keptFindings w g.Testcases
      Tests := (keptFindings w g.Testcases).length } ∧
    (keptFindings w g.Testcases).length ≠ 0 := by
  unfold keptSuite at h
  by_cases hl : (keptFindings w g.Testcases).length ≠ 0
  · rw [if_pos hl, Option.some.injEq] at h
    exact ⟨h.symm, hl⟩
  · rw [if_neg hl] at h
    cases h

theorem keptFindings_idem (w : Whitelist) (tcs : List Testcase) :
    keptFindings w (keptFindings w tcs) = keptFindings w tcs := by
  unfold keptFindings
  rw [List.filter_filter]
  simp

theorem keptSuite_fixed (w : Whitelist) (g o : Testsuite) (h : keptSuite w g = some o) :
    keptSuite w o = some o := by
  obtain ⟨ho, hl⟩ := keptSuite_eq_some w g o h
  subst ho
  unfold keptSuite
  simp only [keptFindings_idem]
  rw [if_pos hl]

theorem filterMap_eq_self {α : Type} (f : α → Option α) (l : List α)
    (h : ∀ x ∈ l, f x = some x) : l.filterMap f = l := by
  induction l with
  | nil => rfl
  | cons a t ih =>
    rw [List.filterMap_cons_some (h a (List.mem_cons_self _ _)),
      ih (fun x hx => h x (List.mem_cons_of_mem _ hx))]

theorem reportOk_filterMap (w : Whitelist) (gs : List Testsuite) (h : ReportOk gs) :
    ReportOk (gs.filterMap (keptSuite w)) := by
  intro o ho tc htc
  obtain ⟨g, hg, hk⟩ := List.mem_filterMap.mp ho
  rw [(keptSuite_eq_some w g o hk).1] at htc
  exact h g hg tc ((keptFindings_sublist w g.Testcases).subset htc)

/-! ## The field `retrieveCode` returns -/

/-- A text that contains `"> "` has a first occurrence of it. -/
theorem exists_first_cut (s : GoString) (h : sep <:+: s) :
    ∃ a t, s = a ++ sep ++ t ∧
      ∀ a1 t1 : GoString, s = a1 ++ sep ++ t1 → a.length ≤ a1.length := by
  cases hi : Index s sep with
  | none => exact absurd h ((Index_eq_none_iff s sep).mp hi)
  | some m =>
    obtain ⟨⟨q, hq⟩, h2⟩ := Index_eq_some s sep m hi
    refine ⟨s.take m, q, ?_, fun a1 t1 heq => ?_⟩
    · rw [List.append_assoc, hq, List.take_append_drop]
    · by_contra hlt
      have hlen : (s.take m).length ≤ m := by simp
      refine h2 a1.length (by omega) ⟨t1, ?_⟩
      rw [heq]
      simp

/-- The text `retrieveCode` returns for a body cut at its first `"> "`. -/
theorem retrieveCode_cut (a t : GoString)
    (hfirst : ∀ a1 t1 : GoString, a ++ sep ++ t = a1 ++ sep ++ t1 → a.length ≤ a1.length) :
    ∃ c, retrieveCode (a ++ sep ++ t) = .ok c ∧ c <+: t ∧ ¬ sep <:+: c ∧
      (¬ sep <:+: t → c = t) ∧ (sep <:+: t → (c ++ sep) <+: t) := by
  have hdrop : (a ++ sep ++ t).drop (a.length + 2) = t := by
    have hl : (a ++ sep).length = a.length + 2 := by simp [sep]
    rw [← hl, List.drop_left]
  rw [retrieveCode_eq, Index_first a t hfirst]
  simp only [hdrop]
  cases hi : Index t sep with
  | none =>
    have hno := (Index_eq_none_iff t sep).mp hi
    exact ⟨t, rfl, List.prefix_refl t, hno, fun _ => rfl, fun hin => absurd hin hno⟩
  | some k =>
    obtain ⟨h1, h2⟩ := Index_eq_some t sep k hi
    have hin : sep <:+: t := (infix_iff_exists_drop sep t).mpr ⟨k, h1⟩
    refine ⟨t.take k, rfl, List.take_prefix k t, ?_, fun hno => absurd hin hno, fun _ => ?_⟩
    · intro hc
      obtain ⟨j, hj⟩ := (infix_iff_exists_drop sep (t.take k)).mp hc
      have hjk : j < k := by
        have := hj.length_le
        simp only [List.length_drop, List.length_take] at this
        have hs : sep.length = 2 := rfl
        omega
      refine h2 j hjk (hj.trans ?_)
      rw [List.drop_take]
      exact List.take_prefix _ _
    · obtain ⟨q, hq⟩ := h1
      refine ⟨q, ?_⟩
      rw [List.append_assoc, hq, List.take_append_drop]

/-! ## The claims -/

/-- C1, exemption correctness.  When every finding body contains `"> "`,
`removeWhitelistedIssues` returns exactly the findings of the input, in order,
that no whitelist entry matches on both file and extracted code. -/
theorem removeWhitelistedIssues_exemption (w : Whitelist) (tcs : List Testcase)
    (h : ∀ tc ∈ tcs, sep <:+: tc.Failure.Text) :
    removeWhitelistedIssues w tcs =
      .ok (tcs.filter (fun F => decide (¬ ∃ E ∈ w.Issues,
        E.File = F.Name ∧ retrieveCode F.Failure.Text = .ok E.Code))) := by
  unfold removeWhitelistedIssues
  rw [removeLoop_ok w tcs [] h]
  rfl

/-- Witness of C1 on the example scenario: finding A is removed, B is kept. -/
theorem removeWhitelistedIssues_exemption_witness :
    (∀ tc ∈ [findingA, findingB], sep <:+: tc.Failure.Text) ∧
    removeWhitelistedIssues exampleWhitelist [findingA, findingB] =
      .ok ([findingA, findingB].filter (fun F => decide (¬ ∃ E ∈ exampleWhitelist.Issues,
        E.File = F.Name ∧ retrieveCode F.Failure.Text = .ok E.Code))) ∧
    removeWhitelistedIssues exampleWhitelist [findingA, findingB] = .ok [findingB] :=
  ⟨by decide,
   removeWhitelistedIssues_exemption exampleWhitelist [findingA, findingB] (by decide),
   by decide⟩

/-- C2, count invariant.  When every finding body contains `"> "`, whatever
the declared counts of the input, `getWhitelistedTestsuites` returns a report
in which the count `Tests` of every group is the number of its findings. -/
theorem getWhitelistedTestsuites_count (w : Whitelist) (gs : List Testsuite)
    (h : ∀ g ∈ gs, ∀ tc ∈ g.Testcases, sep <:+: tc.Failure.Text) :
    ∃ out, getWhitelistedTestsuites w gs = .ok out ∧
      ∀ g ∈ out, g.Tests = (g.Testcases.length : Int) := by
  refine ⟨_, getWhitelistedTestsuites_ok w gs h, fun o ho => ?_⟩
  obtain ⟨g, _, hg⟩ := List.mem_filterMap.mp ho
  rw [(keptSuite_eq_some w g o hg).1]

/-- Witness of C2: a group declaring 7 findings and carrying two, one of them
exempted. -/
theorem getWhitelistedTestsuites_count_witness :
    (∀ g ∈ [suite "pkg/foo.go" 7 [findingA, findingB]],
      ∀ tc ∈ g.Testcases, sep <:+: tc.Failure.Text) ∧
    ∃ out, getWhitelistedTestsuites exampleWhitelist
        [suite "pkg/foo.go" 7 [findingA, findingB]] = .ok out ∧
      ∀ g ∈ out, g.Tests = (g.Testcases.length : Int) :=
  ⟨by decide,
   getWhitelistedTestsuites_count exampleWhitelist
     [suite "pkg/foo.go" 7 [findingA, findingB]] (by decide)⟩

/-- C3, empty-group elision.  When every finding body contains `"> "`, no
group of the output is without findings, and the output has as many groups as
the input has groups with at least one finding that is not exempted: a group
whose findings are all exempted contributes nothing. -/
theorem getWhitelistedTestsuites_elision (w : Whitelist) (gs : List Testsuite)
    (h : ∀ g ∈ gs, ∀ tc ∈ g.Testcases, sep <:+: tc.Failure.Text) :
    ∃ out, getWhitelistedTestsuites w gs = .ok out ∧
      (∀ g ∈ out, g.Testcases ≠ []) ∧
      out.length =
        (gs.filter (fun g => decide (∃ F ∈ g.Testcases, ¬ Exempted w F))).length := by
  refine ⟨_, getWhitelistedTestsuites_ok w gs h, fun o ho => ?_, ?_⟩
  · obtain ⟨g, _, hg⟩ := List.mem_filterMap.mp ho
    obtain ⟨ho, hl⟩ := keptSuite_eq_some w g o hg
    rw [ho]
    exact fun hnil => hl (by simpa using congrArg List.length hnil)
  · clear h
    induction gs with
    | nil => rfl
    | cons g rest ih =>
      cases hk : keptSuite w g with
      | none =>
        have hall := (keptSuite_eq_none_iff w g).mp hk
        have hno : ¬ ∃ F ∈ g.Testcases, ¬ Exempted w F :=
          fun ⟨F, hF, hne⟩ => hne (hall F hF)
        rw [List.filterMap_cons_none hk, List.filter_cons_of_neg (by simpa using hno)]
        exact ih
      | some o =>
        have hex : ∃ F ∈ g.Testcases, ¬ Exempted w F :=
          (keptFindings_ne_nil_iff w g.Testcases).mp (keptSuite_eq_some w g o hk).2
        rw [List.filterMap_cons_some hk, List.filter_cons_of_pos (by simpa using hex)]
        simp only [List.length_cons, ih]

/-- Witness of C3: of two groups, the one whose only finding is exempted
leaves the output. -/
theorem getWhitelistedTestsuites_elision_witness :
    (∀ g ∈ [suite "a" 1 [findingA], suite "b" 1 [findingB]],
      ∀ tc ∈ g.Testcases, sep <:+: tc.Failure.Text) ∧
    ∃ out, getWhitelistedTestsuites exampleWhitelist
        [suite "a" 1 [findingA], suite "b" 1 [findingB]] = .ok out ∧
      (∀ g ∈ out, g.Testcases ≠ []) ∧
      out.length =
        ([suite "a" 1 [findingA], suite "b" 1 [findingB]].filter
          (fun g => decide (∃ F ∈ g.Testcases, ¬ Exempted exampleWhitelist F))).length :=
  ⟨by decide,
   getWhitelistedTestsuites_elision exampleWhitelist
     [suite "a" 1 [findingA], suite "b" 1 [findingB]] (by decide)⟩

/-- C4, idempotence of re-filtering.  When every finding body contains `"> "`,
filtering the output of `getWhitelistedTestsuites` again with the same
whitelist returns that output unchanged. -/
theorem getWhitelistedTestsuites_idempotent (w : Whitelist) (gs : List Testsuite)
    (h : ∀ g ∈ gs, ∀ tc ∈ g.Testcases, sep <:+: tc.Failure.Text) :
    ∃ out, getWhitelistedTestsuites w gs = .ok out ∧
      getWhitelistedTestsuites w out = .ok out := by
  refine ⟨_, getWhitelistedTestsuites_ok w gs h, ?_⟩
  rw [getWhitelistedTestsuites_ok w _ (reportOk_filterMap w gs h)]
  congr 1
  apply filterMap_eq_self
  intro o ho
  obtain ⟨g, _, hk⟩ := List.mem_filterMap.mp ho
  exact keptSuite_fixed w g o hk

/-- Witness of C4 on the example scenario. -/
theorem getWhitelistedTestsuites_idempotent_witness :
    (∀ g ∈ exampleReport, ∀ tc ∈ g.Testcases, sep <:+: tc.Failure.Text) ∧
    ∃ out, getWhitelistedTestsuites exampleWhitelist exampleReport = .ok out ∧
      getWhitelistedTestsuites exampleWhitelist out = .ok out :=
  ⟨by decide, getWhitelistedTestsuites_idempotent exampleWhitelist exampleReport (by decide)⟩

/-- C5 as stated fails: a group without findings whose declared count is 0
has a correct count, yet the filter with the empty whitelist drops it. -/
theorem getWhitelistedTestsuites_passthrough_counterexample :
    (∀ g ∈ [suite "pkg/empty.go" 0 []], g.Tests = (g.Testcases.length : Int)) ∧
    (∀ g ∈ [suite "pkg/empty.go" 0 []], ∀ tc ∈ g.Testcases, sep <:+: tc.Failure.Text) ∧
    getWhitelistedTestsuites { Issues := [] } [suite "pkg/empty.go" 0 []] = .ok [] ∧
    getWhitelistedTestsuites { Issues := [] } [suite "pkg/empty.go" 0 []] ≠
      .ok [suite "pkg/empty.go" 0 []] := by
  decide

/-- C5 amended, no-whitelist pass-through.  When every group has at least one
finding and a declared count equal to the number of its findings, and every
finding body contains `"> "`, `getWhitelistedTestsuites` with the empty
whitelist returns the input itself. -/
theorem getWhitelistedTestsuites_passthrough (gs : List Testsuite)
    (hne : ∀ g ∈ gs, g.Testcases ≠ [])
    (hcount : ∀ g ∈ gs, g.Tests = (g.Testcases.length : Int))
    (h : ∀ g ∈ gs, ∀ tc ∈ g.Testcases, sep <:+: tc.Failure.Text) :
    getWhitelistedTestsuites { Issues := [] } gs = .ok gs := by
  rw [getWhitelistedTestsuites_ok _ gs h]
  congr 1
  apply filterMap_eq_self
  intro g hg
  have hk : keptFindings { Issues := [] } g.Testcases = g.Testcases := by
    unfold keptFindings
    apply List.filter_eq_self.mpr
    intro F _
    simp [Exempted]
  unfold keptSuite
  rw [hk, if_pos (fun hz => hne g hg (List.length_eq_zero.mp hz)), ← hcount g hg]

/-- Witness of C5 amended on the example report. -/
theorem getWhitelistedTestsuites_passthrough_witness :
    (∀ g ∈ exampleReport, g.Testcases ≠ []) ∧
    (∀ g ∈ exampleReport, g.Tests = (g.Testcases.length : Int)) ∧
    (∀ g ∈ exampleReport, ∀ tc ∈ g.Testcases, sep <:+: tc.Failure.Text) ∧
    getWhitelistedTestsuites { Issues := [] } exampleReport = .ok exampleReport :=
  ⟨by decide, by decide, by decide,
   getWhitelistedTestsuites_passthrough exampleReport (by decide) (by decide) (by decide)⟩

/-- C6 as stated fails: for the body `a> b> c` the text after the first `"> "`
is `b> c`, and `retrieveCode` returns `b`, the second field of the split. -/
theorem retrieveCode_after_first_counterexample :
    retrieveCode "a> b> c".toList = .ok "b".toList ∧
    ¬ (∀ a t : GoString,
        (∀ a1 t1 : GoString, a ++ sep ++ t = a1 ++ sep ++ t1 → a.length ≤ a1.length) →
        retrieveCode (a ++ sep ++ t) = .ok t) := by
  refine ⟨by decide, fun hall => ?_⟩
  have hfirst : ∀ a1 t1 : GoString,
      "a".toList ++ sep ++ "b> c".toList = a1 ++ sep ++ t1 → "a".toList.length ≤ a1.length := by
    intro a1 t1 heq
    cases a1 with
    | nil => exact absurd heq (by simp [sep])
    | cons x xs => simp
  exact absurd (hall "a".toList "b> c".toList hfirst) (by decide)

/-- C6 amended, match-code extraction.  A body that contains `"> "` is cut at
the first occurrence of `"> "` into `a` and `t`, and `retrieveCode` returns a
text `c` that starts `t` and holds no `"> "`: it is `t` itself when `t` holds
no `"> "`, and otherwise it is followed in `t` by `"> "`, so it ends at the
next separator. -/
theorem retrieveCode_second_field (s : GoString) (h : sep <:+: s) :
    ∃ a t c, s = a ++ sep ++ t ∧
      (∀ a1 t1 : GoString, s = a1 ++ sep ++ t1 → a.length ≤ a1.length) ∧
      retrieveCode s = .ok c ∧ c <+: t ∧ ¬ sep <:+: c ∧
      (¬ sep <:+: t → c = t) ∧ (sep <:+: t → (c ++ sep) <+: t) := by
  obtain ⟨a, t, hs, hfirst⟩ := exists_first_cut s h
  subst hs
  obtain ⟨c, hc⟩ := retrieveCode_cut a t hfirst
  exact ⟨a, t, c, rfl, hfirst, hc⟩

/-- Witness of C6 amended: the body `a> b> c`. -/
theorem retrieveCode_second_field_witness :
    sep <:+: "a> b> c".toList ∧
    ∃ a t c, "a> b> c".toList = a ++ sep ++ t ∧
      (∀ a1 t1 : GoString, "a> b> c".toList = a1 ++ sep ++ t1 → a.length ≤ a1.length) ∧
      retrieveCode "a> b> c".toList = .ok c ∧ c <+: t ∧ ¬ sep <:+: c ∧
      (¬ sep <:+: t → c = t) ∧ (sep <:+: t → (c ++ sep) <+: t) :=
  ⟨by decide, retrieveCode_second_field "a> b> c".toList (by decide)⟩

/-- C7, malformed finding message.  For every whitelist and report,
`getWhitelistedTestsuites` panics with `index out of range [1] with length 1`
exactly when some finding body does not contain `"> "`, and it returns a report
exactly when every finding body contains it; there is no third outcome. -/
theorem getWhitelistedTestsuites_panic_iff (w : Whitelist) (gs : List Testsuite) :
    (getWhitelistedTestsuites w gs = .error (.indexOutOfRange 1 1) ↔
      ∃ g ∈ gs, ∃ tc ∈ g.Testcases, ¬ sep <:+: tc.Failure.Text) ∧
    ((∃ out, getWhitelistedTestsuites w gs = .ok out) ↔
      ∀ g ∈ gs, ∀ tc ∈ g.Testcases, sep <:+: tc.Failure.Text) := by
  by_cases h : ReportOk gs
  · have hok := getWhitelistedTestsuites_ok w gs h
    refine ⟨⟨fun he => ?_, fun ⟨g, hg, tc, htc, hno⟩ => absurd (h g hg tc htc) hno⟩,
      ⟨fun _ => h, fun _ => ⟨_, hok⟩⟩⟩
    rw [hok] at he
    cases he
  · have herr : getWhitelistedTestsuites w gs = .error (.indexOutOfRange 1 1) :=
      getLoop_error w gs [] h
    refine ⟨⟨fun _ => ?_, fun _ => herr⟩, ⟨fun ⟨out, ho⟩ => ?_, fun hall => absurd hall h⟩⟩
    · by_contra hno
      apply h
      intro g hg tc htc
      by_contra hb
      exact hno ⟨g, hg, tc, htc, hb⟩
    · rw [herr] at ho
      cases ho

/-- C8, graceful whitelist degradation, is not what the code does.  When
`os.Open` fails, `parseWhitelistFile` sets the whitelist to the empty object as
its comment announces, but then goes on to read the nil file handle:
`ioutil.ReadAll` returns `os.ErrInvalid` and `errorHandler` ends the process
with `log.Fatal`.  No whitelist is returned, whatever the JSON decoder does. -/
theorem parseWhitelistFile_open_error_fatal (fs : FileSystem) (jsonUnmarshal : Unmarshal)
    (filename : GoString) (e : GoError) (h : fs filename = .error e) :
    parseWhitelistFile fs jsonUnmarshal filename = .fatal .errInvalid := by
  simp [parseWhitelistFile, osOpen, h, ioutilReadAll, errorHandler]

/-- Witness of the C8 theorem: no file exists, the path is the default
`whitelist.json`, and the decoder leaves the whitelist as it is. -/
theorem parseWhitelistFile_open_error_fatal_witness :
    (fun _ => .error (.other "no such file or directory".toList) : FileSystem)
        "whitelist.json".toList = .error (.other "no such file or directory".toList) ∧
    parseWhitelistFile (fun _ => .error (.other "no such file or directory".toList))
        (fun _ w => (w, none)) "whitelist.json".toList = .fatal .errInvalid :=
  ⟨rfl, parseWhitelistFile_open_error_fatal _ _ _ _ rfl⟩

/-- C9, findings are retained unchanged and in order.  When every finding body
contains `"> "`, the output groups correspond one to one, in order, to a
sublist of the input groups, and each output group has the name of its input
group and, as findings, a sublist of that group's findings: the same values in
the same order, none added, repeated or altered. -/
theorem getWhitelistedTestsuites_findings_retained (w : Whitelist) (gs : List Testsuite)
    (h : ∀ g ∈ gs, ∀ tc ∈ g.Testcases, sep <:+: tc.Failure.Text) :
    ∃ out, getWhitelistedTestsuites w gs = .ok out ∧
      ∃ src, src.Sublist gs ∧
        List.Forall₂ (fun o g => o.Testcases.Sublist g.Testcases ∧ o.Name = g.Name ∧
          o.XMLName = g.XMLName) out src := by
  refine ⟨_, getWhitelistedTestsuites_ok w gs h, ?_⟩
  clear h
  induction gs with
  | nil => exact ⟨[], List.Sublist.slnil, List.Forall₂.nil⟩
  | cons g rest ih =>
    obtain ⟨src, hsub, hall⟩ := ih
    cases hk : keptSuite w g with
    | none =>
      rw [List.filterMap_cons_none hk]
      exact ⟨src, hsub.cons g, hall⟩
    | some o =>
      rw [List.filterMap_cons_some hk]
      refine ⟨g :: src, hsub.cons₂ g, List.Forall₂.cons ?_ hall⟩
      rw [(keptSuite_eq_some w g o hk).1]
      exact ⟨keptFindings_sublist w g.Testcases, rfl, rfl⟩

/-- Witness of C9 on the example scenario. -/
theorem getWhitelistedTestsuites_findings_retained_witness :
    (∀ g ∈ exampleReport, ∀ tc ∈ g.Testcases, sep <:+: tc.Failure.Text) ∧
    ∃ out, getWhitelistedTestsuites exampleWhitelist exampleReport = .ok out ∧
      ∃ src, src.Sublist exampleReport ∧
        List.Forall₂ (fun o g => o.Testcases.Sublist g.Testcases ∧ o.Name = g.Name ∧
          o.XMLName = g.XMLName) out src :=
  ⟨by decide,
   getWhitelistedTestsuites_findings_retained exampleWhitelist exampleReport (by decide)⟩

/-- C10, surviving groups keep their name and relative order.  When every
finding body contains `"> "`, the names of the output groups are, in order, the
names of the input groups that have at least one finding that is not
exempted. -/
theorem getWhitelistedTestsuites_names (w : Whitelist) (gs : List Testsuite)
    (h : ∀ g ∈ gs, ∀ tc ∈ g.Testcases, sep <:+: tc.Failure.Text) :
    ∃ out, getWhitelistedTestsuites w gs = .ok out ∧
      out.map Testsuite.Name =
        (gs.filter (fun g => decide (∃ F ∈ g.Testcases, ¬ Exempted w F))).map
          Testsuite.Name := by
  refine ⟨_, getWhitelistedTestsuites_ok w gs h, ?_⟩
  clear h
  induction gs with
  | nil => rfl
  | cons g rest ih =>
    cases hk : keptSuite w g with
    | none =>
      have hall := (keptSuite_eq_none_iff w g).mp hk
      have hno : ¬ ∃ F ∈ g.Testcases, ¬ Exempted w F :=
        fun ⟨F, hF, hne⟩ => hne (hall F hF)
      rw [List.filterMap_cons_none hk, List.filter_cons_of_neg (by simpa using hno)]
      exact ih
    | some o =>
      have hex : ∃ F ∈ g.Testcases, ¬ Exempted w F :=
        (keptFindings_ne_nil_iff w g.Testcases).mp (keptSuite_eq_some w g o hk).2
      rw [List.filterMap_cons_some hk, List.filter_cons_of_pos (by simpa using hex),
        List.map_cons, List.map_cons, ih, (keptSuite_eq_some w g o hk).1]

/-- Witness of C10: three groups, the middle one emptied by the whitelist. -/
theorem getWhitelistedTestsuites_names_witness :
    (∀ g ∈ [suite "x" 1 [findingB], suite "y" 1 [findingA], suite "z" 2 [findingA, findingB]],
      ∀ tc ∈ g.Testcases, sep <:+: tc.Failure.Text) ∧
    ∃ out, getWhitelistedTestsuites exampleWhitelist
        [suite "x" 1 [findingB], suite "y" 1 [findingA], suite "z" 2 [findingA, findingB]] =
          .ok out ∧
      out.map Testsuite.Name =
        ([suite "x" 1 [findingB], suite "y" 1 [findingA],
            suite "z" 2 [findingA, findingB]].filter
          (fun g => decide (∃ F ∈ g.Testcases, ¬ Exempted exampleWhitelist F))).map
          Testsuite.Name :=
  ⟨by decide,
   getWhitelistedTestsuites_names exampleWhitelist
     [suite "x" 1 [findingB], suite "y" 1 [findingA], suite "z" 2 [findingA, findingB]]
     (by decide)⟩
/-! ## Whitelists that exempt the same findings -/

theorem infix_of_retrieveCode_ok (s c : GoString) (h : retrieveCode s = .ok c) :
    sep <:+: s := by
  by_contra hno
  rw [ retrieveCode_error_of_not_infix s hno] at h
  cases h

theorem filterMap_eq_of_forall {α β : Type} (f g : α → Option β) (l : List α)
    (h : ∀ x ∈ l, f x = g x) : l.filterMap f = l.filterMap g := by
  induction l with
  | nil => rfl
  | cons a t ih =>
    have ha := h a (List.mem_cons_self _ _)
    have ht := ih (fun x hx => h x (List.mem_cons_of_mem _ hx))
    cases hg : g a with
    | none => rw [List.filterMap_cons_none (ha.trans hg), List.filterMap_cons_none hg, ht]
    | some b => rw [List.filterMap_cons_some (ha.trans hg), List.filterMap_cons_some hg, ht]

theorem keptFindings_congr (w1 w2 : Whitelist) (tcs : List Testcase)
    (h : ∀ F ∈ tcs, (Exempted w1 F ↔ Exempted w2 F)) :
    keptFindings w1 tcs = keptFindings w2 tcs := by
  unfold keptFindings
  apply List.filter_congr
  intro F hF
  simp only [h F hF]

theorem keptSuite_congr (w1 w2 : Whitelist) (g : Testsuite)
    (h : ∀ F ∈ g.Testcases, (Exempted w1 F ↔ Exempted w2 F)) :
    keptSuite w1 g = keptSuite w2 g := by
  unfold keptSuite
  rw [keptFindings_congr w1 w2 g.Testcases h]

/-- Two whitelists that exempt the same findings of a report filter it alike,
the panic on a body without separator included. -/
theorem getWhitelistedTestsuites_congr (w1 w2 : Whitelist) (gs : List Testsuite)
    (h : ∀ g ∈ gs, ∀ F ∈ g.Testcases, (Exempted w1 F ↔ Exempted w2 F)) :
    getWhitelistedTestsuites w1 gs = getWhitelistedTestsuites w2 gs := by
  by_cases hok : ReportOk gs
  · rw [getWhitelistedTestsuites_ok w1 gs hok, getWhitelistedTestsuites_ok w2 gs hok]
    congr 1
    exact filterMap_eq_of_forall _ _ gs (fun g hg => keptSuite_congr w1 w2 g (h g hg))
  · unfold getWhitelistedTestsuites
    rw [getLoop_error w1 gs [] hok, getLoop_error w2 gs [] hok]

/-! ## The claims, continued -/

/-- C11, example scenario.  For the group `pkg/foo.go` declaring 2 findings,
with finding A (body ending in `> G101`) and finding B (body ending in
`> G104`), and the whitelist with the single entry `pkg/foo.go`, `G101`,
`getWhitelistedTestsuites` returns exactly one group, named `pkg/foo.go`, with
count 1 and the single finding B; this whatever the entry's details, the
`message` attributes and the recorded element names are. -/
theorem getWhitelistedTestsuites_example (xs xa xfa xb xfb : XMLName)
    (ma mb details : GoString) :
    getWhitelistedTestsuites
      { Issues := [{ Details := details, File := "pkg/foo.go".toList, Code := "G101".toList }] }
      [{ XMLName := xs, Name := "pkg/foo.go".toList, Tests := 2,
         Testcases :=
          [{ XMLName := xa, Name := "pkg/foo.go".toList,
             Failure := { XMLName := xfa, Message := ma,
                          Text := "Potential hardcoded credentials - > G101".toList } },
           { XMLName := xb, Name := "pkg/foo.go".toList,
             Failure := { XMLName := xfb, Message := mb,
                          Text := "Errors unhandled - > G104".toList } }] }] =
    .ok [{ XMLName := xs, Name := "pkg/foo.go".toList, Tests := 1,
           Testcases :=
            [{ XMLName := xb, Name := "pkg/foo.go".toList,
               Failure := { XMLName := xfb, Message := mb,
                            Text := "Errors unhandled - > G104".toList } }] }] := by
  rfl

/-- C12, zero-groups output.  For every whitelist, a report in which every
finding of every group is exempted, the report without groups among them, is
filtered to the report without groups. -/
theorem getWhitelistedTestsuites_all_exempted (w : Whitelist) (gs : List Testsuite)
    (h : ∀ g ∈ gs, ∀ F ∈ g.Testcases, Exempted w F) :
    getWhitelistedTestsuites w gs = .ok [] := by
  have hok : ReportOk gs := by
    intro g hg F hF
    obtain ⟨E, _, _, hc⟩ := h g hg F hF
    exact infix_of_retrieveCode_ok _ _ hc
  rw [getWhitelistedTestsuites_ok w gs hok]
  congr 1
  rw [List.filterMap_eq_nil_iff]
  exact fun g hg => (keptSuite_eq_none_iff w g).mpr (h g hg)

/-- Witness of C12: the report without groups, and the example report with
whitelist entries for both of its findings. -/
theorem getWhitelistedTestsuites_all_exempted_witness :
    ((∀ g ∈ ([] : List Testsuite), ∀ F ∈ g.Testcases, Exempted exampleWhitelist F) ∧
      getWhitelistedTestsuites exampleWhitelist [] = .ok []) ∧
    ((∀ g ∈ exampleReport, ∀ F ∈ g.Testcases, Exempted exampleWhitelistBoth F) ∧
      getWhitelistedTestsuites exampleWhitelistBoth exampleReport = .ok []) :=
  ⟨⟨by decide, getWhitelistedTestsuites_all_exempted exampleWhitelist [] (by decide)⟩,
   ⟨by decide,
    getWhitelistedTestsuites_all_exempted exampleWhitelistBoth exampleReport (by decide)⟩⟩

/-- C13, the whitelist is an unordered set of pairs of file and code.  For
every report, two whitelists of which each holds, for every entry of the
other, an entry with the same file and the same code, give the same result:
order, repetition and details of the entries do not matter. -/
theorem getWhitelistedTestsuites_whitelist_set (w1 w2 : Whitelist) (gs : List Testsuite)
    (h12 : ∀ E ∈ w1.Issues, ∃ E2 ∈ w2.Issues, E2.File = E.File ∧ E2.Code = E.Code)
    (h21 : ∀ E ∈ w2.Issues, ∃ E1 ∈ w1.Issues, E1.File = E.File ∧ E1.Code = E.Code) :
    getWhitelistedTestsuites w1 gs = getWhitelistedTestsuites w2 gs := by
  apply getWhitelistedTestsuites_congr
  intro g _ F _
  constructor
  · rintro ⟨E, hE, hf, hc⟩
    obtain ⟨E2, hE2, hf2, hc2⟩ := h12 E hE
    exact ⟨E2, hE2, hf2.trans hf, by rw [hc, hc2]⟩
  · rintro ⟨E, hE, hf, hc⟩
    obtain ⟨E1, hE1, hf1, hc1⟩ := h21 E hE
    exact ⟨E1, hE1, hf1.trans hf, by rw [hc, hc1]⟩

/-- Witness of C13: the entries of the second whitelist in another order, one
of them twice and one with other details. -/
theorem getWhitelistedTestsuites_whitelist_set_witness :
    (∀ E ∈ exampleWhitelistBoth.Issues,
      ∃ E2 ∈ [entry "pkg/foo.go" "G104",
          { Details := "accepted".toList, File := "pkg/foo.go".toList, Code := "G101".toList },
          entry "pkg/foo.go" "G104"],
        E2.File = E.File ∧ E2.Code = E.Code) ∧
    (∀ E ∈ [entry "pkg/foo.go" "G104",
          { Details := "accepted".toList, File := "pkg/foo.go".toList, Code := "G101".toList },
          entry "pkg/foo.go" "G104"],
      ∃ E1 ∈ exampleWhitelistBoth.Issues, E1.File = E.File ∧ E1.Code = E.Code) ∧
    getWhitelistedTestsuites exampleWhitelistBoth exampleReport =
      getWhitelistedTestsuites
        { Issues := [entry "pkg/foo.go" "G104",
            { Details := "accepted".toList, File := "pkg/foo.go".toList, Code := "G101".toList },
            entry "pkg/foo.go" "G104"] }
        exampleReport :=
  ⟨by decide, by decide,
   getWhitelistedTestsuites_whitelist_set exampleWhitelistBoth
     { Issues := [entry "pkg/foo.go" "G104",
        { Details := "accepted".toList, File := "pkg/foo.go".toList, Code := "G101".toList },
        entry "pkg/foo.go" "G104"] }
     exampleReport (by decide) (by decide)⟩

/-- C14, inert entries.  When every finding body contains `"> "` and no finding
of the report has the file of `e` as its name together with the code of `e` as
its extracted code, the filter returns a report, and the same one, with and
without `e` among the entries, wherever `e` stands in the whitelist. -/
theorem getWhitelistedTestsuites_inert_entry (before after : List Issue) (e : Issue)
    (gs : List Testsuite)
    (h : ∀ g ∈ gs, ∀ tc ∈ g.Testcases, sep <:+: tc.Failure.Text)
    (hinert : ∀ g ∈ gs, ∀ F ∈ g.Testcases,
      ¬ (F.Name = e.File ∧ retrieveCode F.Failure.Text = .ok e.Code)) :
    ∃ out, getWhitelistedTestsuites { Issues := before ++ e :: after } gs = .ok out ∧
      getWhitelistedTestsuites { Issues := before ++ after } gs = .ok out := by
  refine ⟨_, ?_, getWhitelistedTestsuites_ok _ gs h⟩
  rw [← getWhitelistedTestsuites_ok _ gs h]
  apply getWhitelistedTestsuites_congr
  intro g hg F hF
  constructor
  · rintro ⟨E, hE, hf, hc⟩
    rcases List.mem_append.mp hE with hb | ha
    · exact ⟨E, List.mem_append.mpr (Or.inl hb), hf, hc⟩
    · rcases List.mem_cons.mp ha with rfl | ha
      · exact absurd ⟨hf.symm, hc⟩ (hinert g hg F hF)
      · exact ⟨E, List.mem_append.mpr (Or.inr ha), hf, hc⟩
  · rintro ⟨E, hE, hf, hc⟩
    rcases List.mem_append.mp hE with hb | ha
    · exact ⟨E, List.mem_append.mpr (Or.inl hb), hf, hc⟩
    · exact ⟨E, List.mem_append.mpr (Or.inr (List.mem_cons_of_mem _ ha)), hf, hc⟩

/-- Witness of C14: an entry for another file, put after the entry of the
example whitelist. -/
theorem getWhitelistedTestsuites_inert_entry_witness :
    (∀ g ∈ exampleReport, ∀ tc ∈ g.Testcases, sep <:+: tc.Failure.Text) ∧
    (∀ g ∈ exampleReport, ∀ F ∈ g.Testcases,
      ¬ (F.Name = (entry "pkg/bar.go" "G104").File ∧
        retrieveCode F.Failure.Text = .ok (entry "pkg/bar.go" "G104").Code)) ∧
    ∃ out, getWhitelistedTestsuites
        { Issues := [entry "pkg/foo.go" "G101"] ++ entry "pkg/bar.go" "G104" :: [] }
        exampleReport = .ok out ∧
      getWhitelistedTestsuites { Issues := [entry "pkg/foo.go" "G101"] ++ [] }
        exampleReport = .ok out :=
  ⟨by decide, by decide,
   getWhitelistedTestsuites_inert_entry [entry "pkg/foo.go" "G101"] []
     (entry "pkg/bar.go" "G104") exampleReport (by decide) (by decide)⟩

/-- C15, the declared count of the input is never trusted.  For every
whitelist, two reports whose groups agree, in order, on everything but the
declared count `Tests` (element name, name and findings) give the same
result. -/
theorem getWhitelistedTestsuites_count_ignored (w : Whitelist) (gs1 gs2 : List Testsuite)
    (h : gs1.map (fun g => (g.XMLName, g.Name, g.Testcases)) =
      gs2.map (fun g => (g.XMLName, g.Name, g.Testcases))) :
    getWhitelistedTestsuites w gs1 = getWhitelistedTestsuites w gs2 := by
  unfold getWhitelistedTestsuites
  generalize ([] : List Testsuite) = acc
  induction gs1 generalizing gs2 acc with
  | nil =>
    cases gs2 with
    | nil => rfl
    | cons g2 r2 => simp at h
  | cons g1 r1 ih =>
    cases gs2 with
    | nil => simp at h
    | cons g2 r2 =>
      simp only [List.map_cons, List.cons.injEq, Prod.mk.injEq] at h
      obtain ⟨⟨hx, hn, ht⟩, hr⟩ := h
      simp only [getWhitelistedTestsuitesLoop, hx, hn, ht]
      cases removeWhitelistedIssues w g2.Testcases with
      | error e => rfl
      | ok tcs =>
        simp only []
        split
        · exact ih r2 hr _
        · exact ih r2 hr _

/-- Witness of C15: the example report, declaring 2 findings, and the same
report declaring 40. -/
theorem getWhitelistedTestsuites_count_ignored_witness :
    (exampleReport.map (fun g => (g.XMLName, g.Name, g.Testcases)) =
      [suite "pkg/foo.go" 40 [findingA, findingB]].map
        (fun g => (g.XMLName, g.Name, g.Testcases))) ∧
    getWhitelistedTestsuites exampleWhitelist exampleReport =
      getWhitelistedTestsuites exampleWhitelist [suite "pkg/foo.go" 40 [findingA, findingB]] :=
  ⟨by decide,
   getWhitelistedTestsuites_count_ignored exampleWhitelist exampleReport
     [suite "pkg/foo.go" 40 [findingA, findingB]] (by decide)⟩

/-! ## Filtering by the entries of two whitelists -/

theorem exempted_append (l1 l2 : List Issue) (F : Testcase) :
    Exempted { Issues := l1 ++ l2 } F ↔
      Exempted { Issues := l1 } F ∨ Exempted { Issues := l2 } F := by
  unfold Exempted
  constructor
  · rintro ⟨E, hE, hf, hc⟩
    rcases List.mem_append.mp hE with h1 | h2
    · exact Or.inl ⟨E, h1, hf, hc⟩
    · exact Or.inr ⟨E, h2, hf, hc⟩
  · rintro (⟨E, hE, hf, hc⟩ | ⟨E, hE, hf, hc⟩)
    · exact ⟨E, List.mem_append.mpr (Or.inl hE), hf, hc⟩
    · exact ⟨E, List.mem_append.mpr (Or.inr hE), hf, hc⟩

theorem keptFindings_append (l1 l2 : List Issue) (tcs : List Testcase) :
    keptFindings { Issues := l1 ++ l2 } tcs =
      keptFindings { Issues := l2 } (keptFindings { Issues := l1 } tcs) := by
  unfold keptFindings
  rw [List.filter_filter]
  apply List.filter_congr
  intro F _
  by_cases h1 : Exempted { Issues := l1 } F <;> by_cases h2 : Exempted { Issues := l2 } F <;>
    simp [exempted_append, h1, h2]

theorem keptSuite_append (l1 l2 : List Issue) (g : Testsuite) :
    keptSuite { Issues := l1 ++ l2 } g =
      (keptSuite { Issues := l1 } g).bind (keptSuite { Issues := l2 }) := by
  unfold keptSuite
  rw [keptFindings_append]
  by_cases h1 : (keptFindings { Issues := l1 } g.Testcases).length ≠ 0
  · rw [if_pos h1]
    rfl
  · have hnil : keptFindings { Issues := l1 } g.Testcases = [] :=
      List.length_eq_zero.mp (not_not.mp h1)
    rw [if_neg h1, hnil]
    rfl

theorem filterMap_keptSuite_append (l1 l2 : List Issue) (gs : List Testsuite) :
    gs.filterMap (keptSuite { Issues := l1 ++ l2 }) =
      (gs.filterMap (keptSuite { Issues := l1 })).filterMap (keptSuite { Issues := l2 }) := by
  rw [List.filterMap_filterMap]
  exact filterMap_eq_of_forall _ _ gs (fun g _ => keptSuite_append l1 l2 g)

theorem filterMap_keptSuite_comm (l1 l2 : List Issue) (gs : List Testsuite) :
    gs.filterMap (keptSuite { Issues := l2 ++ l1 }) =
      gs.filterMap (keptSuite { Issues := l1 ++ l2 }) := by
  apply filterMap_eq_of_forall
  intro g _
  apply keptSuite_congr
  intro F _
  rw [exempted_append, exempted_append, or_comm]

/-- C16, malformed whitelist content, is not what the code does for every
decoding error.  When the file opens and is read, and `json.Unmarshal` returns
an error, `parseWhitelistFile` returns the whitelist as the failed decoding
left it: the empty object that the code then decodes into it, as its comment
announces, sets no field and removes no entry.  The result has zero entries
only if the failed decoding stored none, as is the case for a syntax error,
and not for a value of the wrong type. -/
theorem parseWhitelistFile_decode_error (fs : FileSystem) (jsonUnmarshal : Unmarshal)
    (filename : GoString) (f : File) (data : GoString) (w : Whitelist) (e : GoError)
    (hopen : fs filename = .ok f) (hread : f.contents = .ok data)
    (hdecode : jsonUnmarshal data { Issues := [] } = (w, some e))
    (hempty : jsonUnmarshal ['{', '}'] w = (w, none)) :
    parseWhitelistFile fs jsonUnmarshal filename = .returned w := by
  simp [parseWhitelistFile, osOpen, hopen, ioutilReadAll, hread, errorHandler, hdecode, hempty]

/-- Witness of the C16 theorem: the file `whitelist.json` holds an entry whose
`details` is a number.  The loader returns a whitelist with that entry, not
the empty whitelist, and finding A of the example report is filtered out. -/
theorem parseWhitelistFile_decode_error_witness :
    (oneFile wrongTypeContent "whitelist.json".toList = .ok { contents := .ok wrongTypeContent } ∧
      ({ contents := .ok wrongTypeContent } : File).contents = .ok wrongTypeContent ∧
      tableUnmarshal wrongTypeContent { Issues := [] } =
        ({ Issues := [entry "pkg/foo.go" "G101"] },
          some (.other "json: cannot unmarshal number into Go struct field Issue.Issues.details of type string".toList)) ∧
      tableUnmarshal ['{', '}'] { Issues := [entry "pkg/foo.go" "G101"] } =
        ({ Issues := [entry "pkg/foo.go" "G101"] }, none)) ∧
    parseWhitelistFile (oneFile wrongTypeContent) tableUnmarshal "whitelist.json".toList =
      .returned { Issues := [entry "pkg/foo.go" "G101"] } ∧
    parseWhitelistFile (oneFile wrongTypeContent) tableUnmarshal "whitelist.json".toList ≠
      .returned { Issues := [] } ∧
    getWhitelistedTestsuites { Issues := [entry "pkg/foo.go" "G101"] } exampleReport ≠
      getWhitelistedTestsuites { Issues := [] } exampleReport :=
  ⟨⟨by decide, rfl, by decide, by decide⟩,
   parseWhitelistFile_decode_error (oneFile wrongTypeContent) tableUnmarshal
     "whitelist.json".toList { contents := .ok wrongTypeContent } wrongTypeContent
     { Issues := [entry "pkg/foo.go" "G101"] }
     (.other "json: cannot unmarshal number into Go struct field Issue.Issues.details of type string".toList)
     (by decide) rfl (by decide) (by decide),
   by decide, by decide⟩

/-- C17, filtering composes over whitelist concatenation.  When every finding
body contains `"> "`, filtering with the entries of `w1` followed by those of
`w2` gives the report that filtering with `w1` and then with `w2` gives; the
same report results with the two whitelists in the other order, one after the
other or concatenated; and every group of it has the name and a sublist of the
findings of a group of the report filtered with `w1` alone. -/
theorem getWhitelistedTestsuites_compose (w1 w2 : Whitelist) (gs : List Testsuite)
    (h : ∀ g ∈ gs, ∀ tc ∈ g.Testcases, sep <:+: tc.Failure.Text) :
    ∃ out1 out2 out,
      getWhitelistedTestsuites w1 gs = .ok out1 ∧
      getWhitelistedTestsuites w2 gs = .ok out2 ∧
      getWhitelistedTestsuites { Issues := w1.Issues ++ w2.Issues } gs = .ok out ∧
      getWhitelistedTestsuites w2 out1 = .ok out ∧
      getWhitelistedTestsuites w1 out2 = .ok out ∧
      getWhitelistedTestsuites { Issues := w2.Issues ++ w1.Issues } gs = .ok out ∧
      ∀ g ∈ out, ∃ g1 ∈ out1, g.Name = g1.Name ∧ g.Testcases.Sublist g1.Testcases := by
  obtain ⟨l1⟩ := w1
  obtain ⟨l2⟩ := w2
  have hok : ReportOk gs := h
  refine ⟨_, _, _, getWhitelistedTestsuites_ok _ gs hok, getWhitelistedTestsuites_ok _ gs hok,
    getWhitelistedTestsuites_ok _ gs hok, ?_, ?_, ?_, ?_⟩
  · rw [getWhitelistedTestsuites_ok _ _ (reportOk_filterMap _ gs hok),
      filterMap_keptSuite_append]
  · rw [getWhitelistedTestsuites_ok _ _ (reportOk_filterMap _ gs hok),
      ← filterMap_keptSuite_append, filterMap_keptSuite_comm]
  · rw [getWhitelistedTestsuites_ok _ gs hok, filterMap_keptSuite_comm]
  · intro g hg
    simp only [filterMap_keptSuite_append] at hg
    obtain ⟨g1, hg1, hk⟩ := List.mem_filterMap.mp hg
    refine ⟨g1, hg1, ?_⟩
    rw [(keptSuite_eq_some _ g1 g hk).1]
    exact ⟨rfl, keptFindings_sublist _ _⟩

/-- Witness of C17 on the example report, with the `G101` entry in one
whitelist and the `G104` entry in the other. -/
theorem getWhitelistedTestsuites_compose_witness :
    (∀ g ∈ exampleReport, ∀ tc ∈ g.Testcases, sep <:+: tc.Failure.Text) ∧
    ∃ out1 out2 out,
      getWhitelistedTestsuites exampleWhitelist exampleReport = .ok out1 ∧
      getWhitelistedTestsuites { Issues := [entry "pkg/foo.go" "G104"] } exampleReport =
        .ok out2 ∧
      getWhitelistedTestsuites
        { Issues := exampleWhitelist.Issues ++
            ({ Issues := [entry "pkg/foo.go" "G104"] } : Whitelist).Issues }
        exampleReport = .ok out ∧
      getWhitelistedTestsuites { Issues := [entry "pkg/foo.go" "G104"] } out1 = .ok out ∧
      getWhitelistedTestsuites exampleWhitelist out2 = .ok out ∧
      getWhitelistedTestsuites
        { Issues := ({ Issues := [entry "pkg/foo.go" "G104"] } : Whitelist).Issues ++
            exampleWhitelist.Issues }
        exampleReport = .ok out ∧
      ∀ g ∈ out, ∃ g1 ∈ out1, g.Name = g1.Name ∧ g.Testcases.Sublist g1.Testcases :=
  ⟨by decide,
   getWhitelistedTestsuites_compose exampleWhitelist { Issues := [entry "pkg/foo.go" "G104"] }
     exampleReport (by decide)⟩

end GasReportFilter
